import Mathlib

/-!
Verification development for the SCEL binary dictionary decoder and the
shared intermediate data model of the imewlconverter-rs repository.

Modelling conventions:
* a Rust byte buffer is a `List Nat` (each element a byte value);
* a Rust `String` is represented by its UTF-16 code-unit sequence
  (`List Nat`), which is a faithful bijective representation of Rust
  strings; `String::from_utf16_lossy` becomes `utf16Lossy`;
* Rust `usize` subtraction `a - b` (which wraps modulo 2 ^ 64 in release
  builds) is modelled by `wsub`;
* a slice-indexing panic is modelled by the `RResult.crash` outcome;
* the `HashMap<u16, String>` pinyin table is an association list with
  prepend-insert and first-match lookup (last write wins, as in HashMap).
-/

set_option maxRecDepth 8192

/-- Rust strings are modelled by their UTF-16 code-unit sequences. -/
abbrev Str := List Nat

/-- The pinyin index table: `HashMap<u16, String>` as an association list. -/
abbrev PyTable := List (Nat × Str)

/-- Wrapping `usize` subtraction, as performed by `a - b` in Rust release
builds when `a` and `b` are below `2 ^ 64`. -/
def wsub (a b : Nat) : Nat := (2 ^ 64 + a - b) % 2 ^ 64

/-- Outcome of a Rust function returning `Result`: `ok`, an `Error::Parse`
with its message, or a panic (arithmetic overflow / slice out of bounds). -/
inductive RResult (α : Type) where
  | ok : α → RResult α
  | err : String → RResult α
  | crash : RResult α
deriving DecidableEq

/-- nom `le_u16`: read a little-endian u16, returning remaining input and
the value. -/
def leU16 : List Nat → Option (List Nat × Nat)
  | b0 :: b1 :: rest => some (rest, b0 + 256 * b1)
  | _ => none

/-- nom `take n`: split off `n` bytes, failing if fewer are available. -/
def takeBytes (n : Nat) (l : List Nat) : Option (List Nat × List Nat) :=
  if n ≤ l.length then some (l.drop n, l.take n) else none

/-- `chunks(2).map(u16::from_le_bytes)` on an even-length byte slice
(the call sites only ever pass even-length slices). -/
def bytesToUnits : List Nat → List Nat
  | b0 :: b1 :: rest => (b0 + 256 * b1) :: bytesToUnits rest
  | _ => []

/-- `String::from_utf16_lossy`, expressed on UTF-16 code-unit sequences:
well-formed surrogate pairs are kept, lone surrogates are replaced by
U+FFFD, everything else is kept unchanged. -/
def utf16Lossy : List Nat → List Nat
  | [] => []
  | [u] => if 0xD800 ≤ u ∧ u ≤ 0xDFFF then [0xFFFD] else [u]
  | u :: v :: rest =>
    if 0xD800 ≤ u ∧ u ≤ 0xDBFF then
      if 0xDC00 ≤ v ∧ v ≤ 0xDFFF then u :: v :: utf16Lossy rest
      else 0xFFFD :: utf16Lossy (v :: rest)
    else if 0xDC00 ≤ u ∧ u ≤ 0xDFFF then 0xFFFD :: utf16Lossy (v :: rest)
    else u :: utf16Lossy (v :: rest)

theorem utf16Lossy_length (l : List Nat) : (utf16Lossy l).length = l.length := by
  induction l using utf16Lossy.induct <;> simp_all [utf16Lossy] <;> (repeat' split) <;>
    (try simp_all) <;> omega

/-- `CodeType` from `data.rs`: the encoding scheme tag. -/
inductive CodeType where
  | UserDefinePhrase | Wubi | Wubi98 | WubiNewAge | Zhengma | Cangjie
  | Unknown | UserDefine | Pinyin | Yong | QingsongErbi | ChaoqiangErbi
  | ChaoqingYinxin | English | InnerCode | XiandaiErbi | Zhuyin
  | TerraPinyin | Chaoyin | NoCode
deriving DecidableEq

/-- `Code` from `data.rs`: `pub struct Code(pub Vec<Vec<String>>)`. -/
structure Code where
  val : List (List Str)
deriving DecidableEq

/-- `Code::new`. -/
def Code.newCode : Code := ⟨[]⟩

/-- `Code::from_char_list`: one position per code, each with a single
candidate. -/
def Code.from_char_list (codes : List Str) : Code :=
  ⟨codes.map (fun c => [c])⟩

/-- `Code::is_empty`: `self.0.is_empty() || self.0.iter().all(|codes| codes.is_empty())`. -/
def Code.is_empty (c : Code) : Bool :=
  c.val.isEmpty || c.val.all List.isEmpty

/-- `Code::cartesian_product`: starting from one empty string, extend by
every candidate of each position in turn, skipping empty positions. -/
def Code.cartesian_product (c : Code) : List Str :=
  if c.val = [] then []
  else
    c.val.foldl
      (fun result codes =>
        if codes = [] then result
        else result.flatMap (fun existing => codes.map (fun code => existing ++ code)))
      [[]]

/-- `WordLibrary` from `data.rs`: one dictionary entry. -/
structure WordLibrary where
  word : Str
  rank : Int
  code_type : CodeType
  codes : Code
  is_english : Bool
deriving DecidableEq

/-- `ScelInfo` from `sogou_scel.rs`: the metadata snapshot. -/
structure ScelInfo where
  name : Str
  category : Str
  description : Str
  example_text : Str
  word_count : Nat
deriving DecidableEq

/-- The 12-byte SCEL magic signature checked by `parse_scel_info`. -/
def scelMagic : List Nat :=
  [0x40, 0x15, 0x00, 0x00, 0x44, 0x43, 0x53, 0x01, 0x01, 0x00, 0x00, 0x00]

/-- The `chunks(2)` mapping of `read_utf16le_string`: a final chunk of a
single byte is mapped to the unit 0. -/
def chunksPadUnits : List Nat → List Nat
  | b0 :: b1 :: rest => (b0 + 256 * b1) :: chunksPadUnits rest
  | [_] => [0]
  | [] => []

/-- `read_utf16le_string`: decode bytes as little-endian UTF-16 units, stop
at the first zero unit, decode the rest permissively. -/
def read_utf16le_string (l : List Nat) : Str :=
  utf16Lossy ((chunksPadUnits l).takeWhile (fun u => u ≠ 0))

/-- The byte range `data[a..b]` of a Rust slice. -/
def byteRange (data : List Nat) (a b : Nat) : List Nat :=
  (data.drop a).take (b - a)

/-- `parse_scel_info`: header validation (length and magic) followed by the
fixed-offset metadata reads. -/
def parse_scel_info (data : List Nat) : RResult ScelInfo :=
  if data.length < 0x1540 then RResult.err ("File too small to be valid SCEL")
  else if data.take 12 ≠ scelMagic then RResult.err ("Invalid SCEL magic number")
  else
    RResult.ok
      { name := read_utf16le_string (byteRange data 0x130 0x338)
        category := read_utf16le_string (byteRange data 0x338 0x540)
        description := read_utf16le_string (byteRange data 0x540 0xd40)
        example_text := read_utf16le_string (byteRange data 0xd40 0x1540)
        word_count :=
          data.getD 0x124 0 + 256 * data.getD 0x125 0 +
            65536 * data.getD 0x126 0 + 16777216 * data.getD 0x127 0 }

/-- `parse_pinyin_entry`: one pinyin-table record
`(index : u16, length : u16, length*2 bytes of UTF-16LE text)`. -/
def parse_pinyin_entry (l : List Nat) : Option (List Nat × (Nat × Str)) :=
  match leU16 l with
  | none => none
  | some (l1, index) =>
    match leU16 l1 with
    | none => none
    | some (l2, length) =>
      match takeBytes (length * 2) l2 with
      | none => none
      | some (l3, pbytes) => some (l3, (index, utf16Lossy (bytesToUnits pbytes)))

theorem bytesToUnits_length : ∀ l : List Nat, (bytesToUnits l).length = l.length / 2
  | [] => by simp [bytesToUnits]
  | [b] => by simp [bytesToUnits]
  | b0 :: b1 :: rest => by
    simp [bytesToUnits, bytesToUnits_length rest]
    omega

theorem leU16_length {l rest : List Nat} {v : Nat} (h : leU16 l = some (rest, v)) :
    rest.length + 2 = l.length := by
  match l with
  | [] => simp [leU16] at h
  | [b] => simp [leU16] at h
  | b0 :: b1 :: r => simp [leU16] at h; simp [h.1]

theorem takeBytes_eq {n : Nat} {l rest t : List Nat} (h : takeBytes n l = some (rest, t)) :
    n ≤ l.length ∧ rest = l.drop n ∧ t = l.take n := by
  by_cases hn : n ≤ l.length
  · simp [takeBytes, hn] at h
    exact ⟨hn, h.1.symm, h.2.symm⟩
  · simp [takeBytes, hn] at h

/-- A successfully parsed pinyin record consumes exactly
`4 + length*2` bytes, where `length` equals the decoded text's UTF-16
unit count. -/
theorem parse_pinyin_entry_length {l rest : List Nat} {idx : Nat} {py : Str}
    (h : parse_pinyin_entry l = some (rest, (idx, py))) :
    rest.length + 4 + py.length * 2 = l.length := by
  unfold parse_pinyin_entry at h
  split at h
  · cases h
  rename_i l1 index h1
  split at h
  · cases h
  rename_i l2 length h2
  split at h
  · cases h
  rename_i l3 pbytes h3
  obtain ⟨hle, hrest, htk⟩ := takeBytes_eq h3
  have e1 := leU16_length h1
  have e2 := leU16_length h2
  simp at h
  obtain ⟨hr, _, hpy⟩ := h
  subst hr
  rw [← hpy, utf16Lossy_length, htk, hrest]
  simp [bytesToUnits_length, List.length_take, List.length_drop]
  omega

/-- The loop of `parse_pinyin_table`: while `offset < data.len() - 4`,
parse one record at `data[offset..]`; stop at a zero index or a failed
parse, otherwise insert and advance by `2 + 2 + pinyin_len * 2`. -/
def pinyinTableGo (data : List Nat) (offset : Nat) (table : PyTable) : PyTable :=
  if h : offset < wsub data.length 4 then
    match hp : parse_pinyin_entry (data.drop offset) with
    | some (_, (index, pinyin)) =>
      if index = 0 then table
      else pinyinTableGo data (offset + (2 + 2 + pinyin.length * 2)) ((index, pinyin) :: table)
    | none => table
  else table
termination_by data.length - offset
decreasing_by
  have := parse_pinyin_entry_length hp
  simp [List.length_drop] at this
  omega

/-- `parse_pinyin_table`: run the table loop from offset 0x1540 with an
empty table (the source wraps the result in `Ok`, and never fails). -/
def parse_pinyin_table (data : List Nat) : PyTable :=
  pinyinTableGo data 0x1540 []

/-- The 4-byte window pattern `[0x00, 0x00, nonzero, 0x00]` tested by
`find_dict_start` at offset `i`. -/
def dictPat (data : List Nat) (i : Nat) : Prop :=
  data.getD i 0 = 0 ∧ data.getD (i + 1) 0 = 0 ∧
    0 < data.getD (i + 2) 0 ∧ data.getD (i + 3) 0 = 0

instance (data : List Nat) (i : Nat) : Decidable (dictPat data i) := by
  unfold dictPat
  infer_instance

/-- The scan loop of `find_dict_start`: `for i in 0x1540..data.len() - 10`,
return the first `i` matching the pattern. -/
def findDictGo (data : List Nat) (i : Nat) : Option Nat :=
  if h : i < wsub data.length 10 then
    if dictPat data i then some i else findDictGo data (i + 1)
  else none
termination_by wsub data.length 10 - i

/-- `find_dict_start`: scan from the table start offset 0x1540. -/
def find_dict_start (data : List Nat) : Option Nat :=
  findDictGo data 0x1540

/-- The index-reading loop of `parse_dict_entry`: read `n` u16 indices,
look each up in the pinyin table, silently dropping misses. -/
def readIndices : Nat → List Nat → PyTable → Option (List Nat × List Str)
  | 0, l, _ => some (l, [])
  | n + 1, l, t =>
    match leU16 l with
    | none => none
    | some (l1, idx) =>
      match readIndices n l1 t with
      | none => none
      | some (l2, parts) =>
        match List.lookup idx t with
        | some py => some (l2, py :: parts)
        | none => some (l2, parts)

/-- The word-reading loop of `parse_dict_entry`: read `n` word records
`(word_len, word_len*2 text bytes, ext_len, ext_len*2 skipped bytes)`. -/
def readWords : Nat → List Nat → Option (List Nat × List Str)
  | 0, l => some (l, [])
  | n + 1, l =>
    match leU16 l with
    | none => none
    | some (l1, word_len) =>
      match takeBytes (word_len * 2) l1 with
      | none => none
      | some (l2, wbytes) =>
        match leU16 l2 with
        | none => none
        | some (l3, ext_len) =>
          match takeBytes (ext_len * 2) l3 with
          | none => none
          | some (l4, _) =>
            match readWords n l4 with
            | none => none
            | some (l5, ws) => some (l5, utf16Lossy (bytesToUnits wbytes) :: ws)

theorem readIndices_length {n : Nat} {l rest : List Nat} {t : PyTable} {parts : List Str}
    (h : readIndices n l t = some (rest, parts)) : rest.length ≤ l.length := by
  induction n generalizing l rest parts with
  | zero => simp [readIndices] at h; simp [h.1]
  | succ n ih =>
    unfold readIndices at h
    split at h
    · cases h
    rename_i l1 idx h1
    split at h
    · cases h
    rename_i l2 ps h2
    have e1 := leU16_length h1
    have e2 := ih h2
    split at h <;> simp at h <;> obtain ⟨hr, _⟩ := h <;> subst hr <;> omega

theorem readWords_spec {n : Nat} {l rest : List Nat} {ws : List Str}
    (h : readWords n l = some (rest, ws)) : rest.length ≤ l.length ∧ ws.length = n := by
  induction n generalizing l rest ws with
  | zero => simp [readWords] at h; simp [h.1, h.2]
  | succ n ih =>
    unfold readWords at h
    split at h
    · cases h
    rename_i l1 word_len h1
    split at h
    · cases h
    rename_i l2 wbytes h2
    split at h
    · cases h
    rename_i l3 ext_len h3
    split at h
    · cases h
    rename_i l4 ebytes h4
    split at h
    · cases h
    rename_i l5 ws1 h5
    have e1 := leU16_length h1
    have e2 := (takeBytes_eq h2).1
    have e2b := (takeBytes_eq h2).2.1
    have e3 := leU16_length h3
    have e4 := (takeBytes_eq h4).1
    have e4b := (takeBytes_eq h4).2.1
    have e5 := ih h5
    simp at h
    obtain ⟨hr, hw⟩ := h
    subst hr
    constructor
    · have d2 : l2.length = l1.length - word_len * 2 := by
        rw [e2b]; simp [List.length_drop]
      have d4 : l4.length = l3.length - ext_len * 2 := by
        rw [e4b]; simp [List.length_drop]
      omega
    · simp [← hw, e5.2]

/-- `parse_dict_entry`: one homophone-group record. Returns the remaining
input and `some` Record built from the first word variant (or `none` when
the group has no word). -/
def parse_dict_entry (l : List Nat) (t : PyTable) : Option (List Nat × Option WordLibrary) :=
  match leU16 l with
  | none => none
  | some (l1, same_pinyin_count) =>
    match leU16 l1 with
    | none => none
    | some (l2, pinyin_len) =>
      match readIndices pinyin_len l2 t with
      | none => none
      | some (l3, pinyin_parts) =>
        match readWords same_pinyin_count l3 with
        | none => none
        | some (l4, words) =>
          match words with
          | [] => some (l4, none)
          | w :: _ =>
            some (l4, some
              { word := w, rank := 0, code_type := CodeType.Pinyin,
                codes := Code.from_char_list pinyin_parts, is_english := false })

/-- A successful `parse_dict_entry` consumes at least the 4 header bytes. -/
theorem parse_dict_entry_length {l rest : List Nat} {t : PyTable} {e : Option WordLibrary}
    (h : parse_dict_entry l t = some (rest, e)) : rest.length + 4 ≤ l.length := by
  unfold parse_dict_entry at h
  split at h
  · cases h
  rename_i l1 spc h1
  split at h
  · cases h
  rename_i l2 pl h2
  split at h
  · cases h
  rename_i l3 parts h3
  split at h
  · cases h
  rename_i l4 words h4
  have e1 := leU16_length h1
  have e2 := leU16_length h2
  have e3 := readIndices_length h3
  have e4 := (readWords_spec h4).1
  split at h <;> simp at h <;> obtain ⟨hr, _⟩ := h <;> subst hr <;> omega

/-- The loop of `parse_dictionary`: while `offset < data.len() - 14`
(wrapping subtraction), slice at `offset` (out of range is a panic,
modelled as `none`), decode one entry, push its Record if any, advance by
the consumed byte count (or by 1 on failure), and stop once 100000
entries are accumulated. -/
def parseDictGo (data : List Nat) (tbl : PyTable) (offset : Nat)
    (entries : List WordLibrary) : Option (List WordLibrary) :=
  if h1 : offset < wsub data.length 14 then
    if h2 : offset ≤ data.length then
      match hp : parse_dict_entry (data.drop offset) tbl with
      | some (rem, e) =>
        let entries1 := match e with
          | some wl => entries ++ [wl]
          | none => entries
        if entries1.length ≥ 100000 then some entries1
        else parseDictGo data tbl (offset + (data.length - offset - rem.length)) entries1
      | none =>
        if entries.length ≥ 100000 then some entries
        else parseDictGo data tbl (offset + 1) entries
    else none
  else some entries
termination_by data.length + 2 - offset
decreasing_by
  · have := parse_dict_entry_length hp
    simp [List.length_drop] at this
    omega
  · omega

/-- `parse_dictionary`: run the entry loop from offset 0 with no entries;
the source returns `Ok(entries)`, and a panic is `crash`. -/
def parse_dictionary (data : List Nat) (tbl : PyTable) : RResult (List WordLibrary) :=
  match parseDictGo data tbl 0 [] with
  | some l => RResult.ok l
  | none => RResult.crash

/-- `parse_scel_file`: the full decode entry point. Note that it checks
only the minimum length, not the magic signature; then it builds the
pinyin table, locates the dictionary section, and decodes entries from
the slice `data[dict_start..]`. -/
def parse_scel_file (data : List Nat) : RResult (List WordLibrary) :=
  if data.length < 0x1540 then RResult.err ("File too small to be valid SCEL")
  else
    match find_dict_start data with
    | some ds => parse_dictionary (data.drop ds) (parse_pinyin_table data)
    | none => RResult.err ("Could not find dictionary start")

theorem wsub_of_le {a b : Nat} (hb : b ≤ a) (ha : a < 2 ^ 64) : wsub a b = a - b := by
  unfold wsub
  have h64 : (2 : Nat) ^ 64 = 18446744073709551616 := by norm_num
  rw [h64] at ha ⊢
  omega

theorem wsub_of_lt {a b : Nat} (h : a < b) (hb : b ≤ 2 ^ 64) : wsub a b = 2 ^ 64 + a - b := by
  unfold wsub
  have h64 : (2 : Nat) ^ 64 = 18446744073709551616 := by norm_num
  rw [h64] at hb ⊢
  omega

theorem drop_append_of_length {α : Type} {pre tail : List α} {n k : Nat}
    (h : pre.length = n) : (pre ++ tail).drop (n + k) = tail.drop k := by
  subst h
  rw [← List.drop_drop, List.drop_left]

theorem getD_append_of_length {pre tail : List Nat} {n k : Nat} (h : pre.length = n) :
    (pre ++ tail).getD (n + k) 0 = tail.getD k 0 := by
  subst h
  rw [List.getD_append_right]
  · simp
  · omega

theorem pinyinTableGo_stop {data : List Nat} {offset : Nat} {table : PyTable}
    (h : ¬ offset < wsub data.length 4) : pinyinTableGo data offset table = table := by
  unfold pinyinTableGo
  simp [h]

theorem pinyinTableGo_fail {data : List Nat} {offset : Nat} {table : PyTable}
    (h2 : parse_pinyin_entry (data.drop offset) = none) :
    pinyinTableGo data offset table = table := by
  unfold pinyinTableGo
  split
  · split
    · rename_i hp
      rw [h2] at hp
      cases hp
    · rfl
  · rfl

theorem pinyinTableGo_zero {data rest : List Nat} {offset : Nat} {table : PyTable} {py : Str}
    (h1 : offset < wsub data.length 4)
    (h2 : parse_pinyin_entry (data.drop offset) = some (rest, (0, py))) :
    pinyinTableGo data offset table = table := by
  unfold pinyinTableGo
  rw [dif_pos h1]
  split
  · rename_i hp
    rw [h2] at hp
    simp at hp
    simp [hp.2.1.symm]
  · rfl

theorem pinyinTableGo_step {data rest : List Nat} {offset idx : Nat} {table : PyTable} {py : Str}
    (h1 : offset < wsub data.length 4)
    (h2 : parse_pinyin_entry (data.drop offset) = some (rest, (idx, py)))
    (h3 : idx ≠ 0) :
    pinyinTableGo data offset table =
      pinyinTableGo data (offset + (2 + 2 + py.length * 2)) ((idx, py) :: table) := by
  conv_lhs => rw [pinyinTableGo]
  rw [dif_pos h1]
  split
  · rename_i hp
    rw [h2] at hp
    simp at hp
    obtain ⟨hf, hi, hpy⟩ := hp
    subst hi
    subst hpy
    simp [h3]
  · rename_i hp
    rw [h2] at hp
    cases hp

theorem findDictGo_stop {data : List Nat} {i : Nat} (h : ¬ i < wsub data.length 10) :
    findDictGo data i = none := by
  unfold findDictGo
  simp [h]

theorem findDictGo_hit {data : List Nat} {i : Nat} (h1 : i < wsub data.length 10)
    (h2 : dictPat data i) : findDictGo data i = some i := by
  unfold findDictGo
  simp [h1, h2]

theorem findDictGo_miss {data : List Nat} {i : Nat} (h1 : i < wsub data.length 10)
    (h2 : ¬ dictPat data i) : findDictGo data i = findDictGo data (i + 1) := by
  conv_lhs => rw [findDictGo]
  simp [h1, h2]

/-- `if let Some(wl) = entry { entries.push(wl) }`. -/
def pushEntry (entries : List WordLibrary) : Option WordLibrary → List WordLibrary
  | some wl => entries ++ [wl]
  | none => entries

theorem parseDictGo_stop {data : List Nat} {tbl : PyTable} {offset : Nat}
    {entries : List WordLibrary} (h : ¬ offset < wsub data.length 14) :
    parseDictGo data tbl offset entries = some entries := by
  unfold parseDictGo
  simp [h]

theorem parseDictGo_crash {data : List Nat} {tbl : PyTable} {offset : Nat}
    {entries : List WordLibrary} (h1 : offset < wsub data.length 14)
    (h2 : ¬ offset ≤ data.length) :
    parseDictGo data tbl offset entries = none := by
  unfold parseDictGo
  simp [h1, h2]

theorem parseDictGo_ok {data rem : List Nat} {tbl : PyTable} {offset : Nat}
    {entries : List WordLibrary} {e : Option WordLibrary}
    (h1 : offset < wsub data.length 14) (h2 : offset ≤ data.length)
    (hp : parse_dict_entry (data.drop offset) tbl = some (rem, e)) :
    parseDictGo data tbl offset entries =
      if (pushEntry entries e).length ≥ 100000 then some (pushEntry entries e)
      else parseDictGo data tbl (offset + (data.length - offset - rem.length))
        (pushEntry entries e) := by
  conv_lhs => rw [parseDictGo]
  rw [dif_pos h1, dif_pos h2]
  split
  · rename_i hp2
    rw [hp] at hp2
    simp at hp2
    obtain ⟨hr, he⟩ := hp2
    subst hr
    subst he
    cases e <;> simp [pushEntry]
  · rename_i hp2
    rw [hp] at hp2
    cases hp2

theorem parseDictGo_err {data : List Nat} {tbl : PyTable} {offset : Nat}
    {entries : List WordLibrary}
    (h1 : offset < wsub data.length 14) (h2 : offset ≤ data.length)
    (hp : parse_dict_entry (data.drop offset) tbl = none) :
    parseDictGo data tbl offset entries =
      if entries.length ≥ 100000 then some entries
      else parseDictGo data tbl (offset + 1) entries := by
  conv_lhs => rw [parseDictGo]
  rw [dif_pos h1, dif_pos h2]
  split
  · rename_i hp2
    rw [hp] at hp2
    cases hp2
  · rfl

/-- Loop invariant for the safety cap: started below the cap, the loop can
only return a list of at most 100000 entries. -/
theorem parseDictGo_cap {data : List Nat} {tbl : PyTable} :
    ∀ offset entries, entries.length < 100000 →
      ∀ l, parseDictGo data tbl offset entries = some l → l.length ≤ 100000 := by
  intro offset0 entries0
  induction offset0, entries0 using parseDictGo.induct data tbl
  case _ h1 h2 rem e hp entries1 hcap =>
    rename_i offset entries
    intro hinv l h
    rw [parseDictGo_ok h1 h2 hp] at h
    have hpe : pushEntry entries e = entries1 := by cases e <;> rfl
    have hlen2 : (pushEntry entries e).length ≤ 100000 := by
      cases e <;> simp [pushEntry] <;> omega
    rw [hpe] at hlen2
    rw [hpe, if_pos hcap] at h
    simp at h
    first
    | (rw [← h]; exact hlen2)
    | (rw [h] at hlen2; exact hlen2)
  case _ h1 h2 rem e hp entries1 hncap ih =>
    rename_i offset entries
    intro hinv l h
    rw [parseDictGo_ok h1 h2 hp] at h
    have hpe : pushEntry entries e = entries1 := by cases e <;> rfl
    rw [hpe, if_neg hncap] at h
    exact ih (by omega) l h
  case _ h1 h2 hp hcap =>
    intro hinv l h
    rw [parseDictGo_err h1 h2 hp, if_pos hcap] at h
    simp at h
    subst h
    omega
  case _ h1 h2 hp hncap ih =>
    intro hinv l h
    rw [parseDictGo_err h1 h2 hp, if_neg hncap] at h
    exact ih hinv l h
  case _ h1 h2 =>
    intro hinv l h
    rw [parseDictGo_crash h1 h2] at h
    cases h
  case _ h1 =>
    intro hinv l h
    rw [parseDictGo_stop h1] at h
    simp at h
    subst h
    omega

theorem parse_dictionary_cap {data : List Nat} {tbl : PyTable} {l : List WordLibrary}
    (h : parse_dictionary data tbl = RResult.ok l) : l.length ≤ 100000 := by
  unfold parse_dictionary at h
  split at h
  · rename_i l2 hgo
    simp at h
    subst h
    exact parseDictGo_cap 0 [] (by norm_num) l2 hgo
  · cases h

/-- Claim C8: for every input buffer, the Record sequence returned by the
full decode contains at most 100000 entries; the accumulated entry list
never exceeds the safety cap (the loop invariant `parseDictGo_cap`). -/
theorem scel_decode_entry_cap (data : List Nat) (l : List WordLibrary)
    (h : parse_scel_file data = RResult.ok l) : l.length ≤ 100000 := by
  unfold parse_scel_file at h
  split at h
  · cases h
  · split at h
    · exact parse_dictionary_cap h
    · cases h

/-- A 14-byte dictionary-section tail whose first window matches the
dictionary pattern and whose entry loop stops immediately
(`wsub 14 14 = 0`). -/
def tailOk : List Nat := [0, 0, 1, 0, 0, 0, 0, 0, 0, 0, 0, 0, 0, 0]

theorem getD_append_at {pre tail : List Nat} {n k m : Nat} (h : pre.length = n)
    (hm : m = n + k) : (pre ++ tail).getD m 0 = tail.getD k 0 := by
  subst hm
  exact getD_append_of_length h

theorem scel_file_hdr_tailOk (hdr : List Nat) (hh : hdr.length = 0x1540) :
    parse_scel_file (hdr ++ tailOk) = RResult.ok [] := by
  have hlen : (hdr ++ tailOk).length = 0x154E := by simp [hh, tailOk]
  have hw10 : wsub (hdr ++ tailOk).length 10 = 0x1544 := by
    rw [hlen]; rw [wsub_of_le] <;> norm_num
  have hpat : dictPat (hdr ++ tailOk) 0x1540 := by
    unfold dictPat
    rw [getD_append_at hh (by norm_num : 0x1540 = 0x1540 + 0)]
    rw [getD_append_at hh (rfl : 0x1540 + 1 = 0x1540 + 1)]
    rw [getD_append_at hh (rfl : 0x1540 + 2 = 0x1540 + 2)]
    rw [getD_append_at hh (rfl : 0x1540 + 3 = 0x1540 + 3)]
    simp [tailOk]
  have hfind : find_dict_start (hdr ++ tailOk) = some 0x1540 := by
    unfold find_dict_start
    rw [findDictGo_hit _ hpat]
    rw [hw10]
    norm_num
  have hdrop : (hdr ++ tailOk).drop 0x1540 = tailOk := by
    have h0 := @drop_append_of_length Nat hdr tailOk 0x1540 0 hh
    simpa using h0
  unfold parse_scel_file
  rw [if_neg (by omega), hfind]
  show parse_dictionary ((hdr ++ tailOk).drop 0x1540) (parse_pinyin_table (hdr ++ tailOk)) =
    RResult.ok []
  rw [hdrop]
  unfold parse_dictionary
  rw [parseDictGo_stop (by simp [tailOk, wsub])]

theorem parse_scel_info_err_magic {data : List Nat} (h1 : ¬ data.length < 0x1540)
    (h2 : data.take 12 ≠ scelMagic) :
    parse_scel_info data = RResult.err ("Invalid SCEL magic number") := by
  unfold parse_scel_info
  rw [if_neg h1, if_pos h2]

/-- Claim C2 (amended): a buffer shorter than 0x1540 fails both entry
points with the format error; a buffer of sufficient length with a
mutated magic fails the metadata entry point; a buffer of sufficient
length with the exact magic passes metadata header validation. The full
decode checks only the length, never the magic (see the counterexample). -/
theorem header_validation (data : List Nat) :
    (data.length < 0x1540 →
      parse_scel_info data = RResult.err ("File too small to be valid SCEL") ∧
      parse_scel_file data = RResult.err ("File too small to be valid SCEL")) ∧
    (0x1540 ≤ data.length → data.take 12 ≠ scelMagic →
      parse_scel_info data = RResult.err ("Invalid SCEL magic number")) ∧
    (0x1540 ≤ data.length → data.take 12 = scelMagic →
      ∃ i, parse_scel_info data = RResult.ok i) := by
  refine ⟨fun h => ?_, fun h1 h2 => ?_, fun h1 h2 => ?_⟩
  · constructor
    · unfold parse_scel_info
      rw [if_pos h]
    · unfold parse_scel_file
      rw [if_pos h]
  · exact parse_scel_info_err_magic (by omega) h2
  · unfold parse_scel_info
    rw [if_neg (by omega), if_neg (by simp [h2])]
    exact ⟨_, rfl⟩

/-- A header block with the exact magic signature. -/
def validHdr : List Nat := scelMagic ++ List.replicate 0x1534 0

theorem validHdr_length : validHdr.length = 0x1540 := by
  unfold validHdr scelMagic
  rw [List.length_append, List.length_replicate]
  rfl

/-- Witness for `header_validation` at a concrete valid buffer. -/
theorem header_validation_witness :
    ∃ i, parse_scel_info validHdr = RResult.ok i := by
  refine (header_validation validHdr).2.2 (by rw [validHdr_length]) ?_
  unfold validHdr
  have h12 : (12 : Nat) = scelMagic.length := by rfl
  rw [h12, List.take_left]

/-- The magic signature with exactly its first byte mutated
(0x40 changed to 0x41). -/
def c2mut : List Nat :=
  [0x41, 0x15, 0x00, 0x00, 0x44, 0x43, 0x53, 0x01, 0x01, 0x00, 0x00, 0x00]

/-- A buffer of valid length whose first 12 bytes are the magic with a
single mutated byte, followed by zeros and a decodable dictionary tail. -/
def c2buf : List Nat := (c2mut ++ List.replicate 0x1534 0) ++ tailOk

theorem c2mut_length : c2mut.length = 12 := by
  unfold c2mut
  rfl

theorem c2hdr_length : (c2mut ++ List.replicate 0x1534 0).length = 0x1540 := by
  rw [List.length_append, c2mut_length, List.length_replicate]

theorem c2buf_length : c2buf.length = 0x154E := by
  unfold c2buf tailOk
  rw [List.length_append, c2hdr_length]
  rfl

/-- Claim C2 counterexample: on a buffer with a single mutated magic byte,
the full decode `parse_scel_file` succeeds (returning zero entries)
instead of failing with a format-mismatch error; only the metadata entry
point rejects the magic. -/
theorem scel_file_ignores_magic :
    parse_scel_file c2buf = RResult.ok [] ∧ c2buf.take 12 ≠ scelMagic ∧
      parse_scel_info c2buf = RResult.err ("Invalid SCEL magic number") := by
  have htake : c2buf.take 12 = c2mut := by
    unfold c2buf
    rw [List.append_assoc]
    have h12 : (12 : Nat) = c2mut.length := c2mut_length.symm
    rw [h12, List.take_left]
  refine ⟨?_, ?_, ?_⟩
  · exact scel_file_hdr_tailOk (c2mut ++ List.replicate 0x1534 0) c2hdr_length
  · rw [htake]
    decide
  · refine parse_scel_info_err_magic ?_ ?_
    · rw [c2buf_length]
      norm_num
    · rw [htake]
      decide

/-- Witness for `scel_decode_entry_cap` at a concrete buffer on which the
full decode returns an (empty) entry list. -/
theorem scel_decode_entry_cap_witness :
    parse_scel_file (validHdr ++ tailOk) = RResult.ok [] ∧
      ([] : List WordLibrary).length ≤ 100000 :=
  ⟨scel_file_hdr_tailOk validHdr validHdr_length,
   scel_decode_entry_cap (validHdr ++ tailOk) []
     (scel_file_hdr_tailOk validHdr validHdr_length)⟩

/-- Claim C9 counterexample: a Code with a first position holding one
candidate and a second position holding none. At least one position has
zero candidates, yet `is_empty` is false — so emptiness is not
"some position empty". -/
theorem is_empty_not_some_position :
    Code.is_empty ⟨[[[97]], []]⟩ = false ∧ [] ∈ (Code.mk [[[97]], []]).val := by
  constructor
  · decide
  · simp

/-- Claim C9 (amended): `is_empty` holds exactly when there are zero
positions or when every position has zero candidates. -/
theorem is_empty_iff (c : Code) :
    c.is_empty = true ↔ c.val = [] ∨ ∀ cs ∈ c.val, cs = [] := by
  unfold Code.is_empty
  simp [List.isEmpty_iff, List.all_eq_true]

theorem cartStep_foldl_length :
    ∀ (ps : List (List Str)) (acc : List Str),
      (ps.foldl
        (fun result codes =>
          if codes = [] then result
          else result.flatMap (fun existing => codes.map (fun code => existing ++ code)))
        acc).length =
      acc.length * ((ps.filter (fun cs => !cs.isEmpty)).map List.length).prod := by
  intro ps
  induction ps with
  | nil => simp
  | cons p ps ih =>
    intro acc
    by_cases hp : p = []
    · subst hp
      simp [ih]
    · have hne : (!p.isEmpty) = true := by simp [List.isEmpty_iff, hp]
      simp only [List.foldl_cons, if_neg hp, ih, List.filter_cons, hne, List.map_cons,
        List.prod_cons]
      rw [List.length_flatMap]
      have hcomp : (List.length ∘ fun existing : Str => p.map (fun code => existing ++ code)) =
          fun _ : Str => p.length := by
        funext x
        simp
      rw [hcomp]
      simp [List.map_const']
      ring

theorem cartStep_foldl_all_empty :
    ∀ (ps : List (List Str)) (acc : List Str), (∀ cs ∈ ps, cs = []) →
      ps.foldl
        (fun result codes =>
          if codes = [] then result
          else result.flatMap (fun existing => codes.map (fun code => existing ++ code)))
        acc = acc := by
  intro ps
  induction ps with
  | nil => simp
  | cons p ps ih =>
    intro acc h
    have hp : p = [] := h p (by simp)
    simp only [List.foldl_cons, if_pos hp]
    exact ih acc (fun cs hcs => h cs (by simp [hcs]))

/-- Claim C10: the Cartesian expansion skips empty positions; with a
non-empty position list its length is the product of the sizes of the
non-empty positions (so all-empty positions give exactly one empty
string), and with zero positions the result is the empty list. -/
theorem cartesian_product_spec (c : Code) :
    (c.val ≠ [] →
      (Code.cartesian_product c).length =
        ((c.val.filter (fun cs => !cs.isEmpty)).map List.length).prod) ∧
    (c.val ≠ [] → (∀ cs ∈ c.val, cs = []) → Code.cartesian_product c = [[]]) ∧
    (c.val = [] → Code.cartesian_product c = []) := by
  refine ⟨fun h => ?_, fun h hall => ?_, fun h => ?_⟩
  · unfold Code.cartesian_product
    rw [if_neg h, cartStep_foldl_length]
    simp
  · unfold Code.cartesian_product
    rw [if_neg h, cartStep_foldl_all_empty c.val [[]] hall]
  · unfold Code.cartesian_product
    rw [if_pos h]

/-- Witness for `cartesian_product_spec`: a concrete two-position Code,
one singleton and one two-candidate position, expands to two strings. -/
theorem cartesian_product_spec_witness :
    Code.cartesian_product ⟨[[[97]], [[98], [99]]]⟩ = [[97, 98], [97, 99]] ∧
      (Code.cartesian_product ⟨[[[97]], [[98], [99]]]⟩).length =
        ((([[[97]], [[98], [99]]] : List (List Str)).filter
          (fun cs => !cs.isEmpty)).map List.length).prod :=
  ⟨by decide, (cartesian_product_spec ⟨[[[97]], [[98], [99]]]⟩).1 (by decide)⟩

/-- Modelled from the spec (for the refinement statement of the entry
decoder): read `pinyin_len` u16 indices as raw values, with no table
lookup or filtering. -/
def rawIndices : Nat → List Nat → Option (List Nat × List Nat)
  | 0, l => some (l, [])
  | n + 1, l =>
    match leU16 l with
    | none => none
    | some (l1, idx) =>
      match rawIndices n l1 with
      | none => none
      | some (l2, idxs) => some (l2, idx :: idxs)

/-- The source's interleaved lookup loop equals reading raw indices and
then dropping the indices with no table match. -/
theorem readIndices_eq_rawIndices :
    ∀ {n : Nat} {l rest : List Nat} {t : PyTable} {parts : List Str},
      readIndices n l t = some (rest, parts) →
      ∃ idxs, rawIndices n l = some (rest, idxs) ∧
        parts = idxs.filterMap (fun i => List.lookup i t) := by
  intro n
  induction n with
  | zero =>
    intro l rest t parts h
    simp [readIndices] at h
    exact ⟨[], by simp [rawIndices, h.1], by simp [h.2.symm]⟩
  | succ n ih =>
    intro l rest t parts h
    unfold readIndices at h
    split at h
    · cases h
    rename_i l1 idx h1
    split at h
    · cases h
    rename_i l2 ps h2
    obtain ⟨idxs, hraw, hps⟩ := ih h2
    split at h <;> rename_i hlk <;> simp at h <;> obtain ⟨hr, hp⟩ := h <;> subst hr
    · exact ⟨idx :: idxs, by simp [rawIndices, h1, hraw],
        by simp [← hp, hps, List.filterMap_cons, hlk]⟩
    · exact ⟨idx :: idxs, by simp [rawIndices, h1, hraw],
        by simp [← hp, hps, List.filterMap_cons, hlk]⟩

/-- Claim C4 (amended): a successfully decoded entry reads
`same_pinyin_count` and `pinyin_len`, then `pinyin_len` raw u16 indices,
then exactly `same_pinyin_count` word records; when the group has at
least one word variant it emits exactly one Record whose word is the
first variant, whose code kind is pinyin, and whose code is the table
lookups of the indices with misses silently dropped; when the group has
zero word variants it emits no Record. -/
theorem dict_entry_emission (l : List Nat) (t : PyTable) (rem : List Nat)
    (e : Option WordLibrary) (h : parse_dict_entry l t = some (rem, e)) :
    ∃ spc pl l1 l2 l3 idxs ws,
      leU16 l = some (l1, spc) ∧ leU16 l1 = some (l2, pl) ∧
      rawIndices pl l2 = some (l3, idxs) ∧ readWords spc l3 = some (rem, ws) ∧
      ws.length = spc ∧
      ((ws = [] ∧ e = none) ∨
        (∃ w ws2, ws = w :: ws2 ∧
          e = some { word := w, rank := 0, code_type := CodeType.Pinyin,
                     codes := Code.from_char_list
                       (idxs.filterMap (fun i => List.lookup i t)),
                     is_english := false })) := by
  unfold parse_dict_entry at h
  split at h
  · cases h
  rename_i l1 spc h1
  split at h
  · cases h
  rename_i l2 pl h2
  split at h
  · cases h
  rename_i l3 parts h3
  split at h
  · cases h
  rename_i l4 ws h4
  obtain ⟨idxs, hraw, hps⟩ := readIndices_eq_rawIndices h3
  have hwl := (readWords_spec h4).2
  cases ws with
  | nil =>
    simp at h
    obtain ⟨hr, he⟩ := h
    subst hr
    refine ⟨spc, pl, l1, l2, l3, idxs, [], h1, h2, hraw, h4, hwl, Or.inl ⟨rfl, ?_⟩⟩
    first
    | exact he
    | exact he.symm
  | cons w ws2 =>
    simp at h
    obtain ⟨hr, he⟩ := h
    subst hr
    refine ⟨spc, pl, l1, l2, l3, idxs, w :: ws2, h1, h2, hraw, h4, hwl,
      Or.inr ⟨w, ws2, rfl, ?_⟩⟩
    rw [← hps]
    first
    | exact he
    | exact he.symm

/-- Claim C4 counterexample: the entry `[0, 0, 0, 0]`
(`same_pinyin_count = 0`, `pinyin_len = 0`) decodes successfully — its
header fields and all (zero) word records fit in the buffer — yet the
decoder emits no Record for it, not exactly one. -/
theorem dict_entry_zero_words :
    parse_dict_entry [0, 0, 0, 0] [] = some ([], none) := by
  decide

/-- The Record decoded from the one-entry witness buffer below. -/
def niRecord : WordLibrary :=
  { word := [0x4F60], rank := 0, code_type := CodeType.Pinyin,
    codes := Code.from_char_list [[110, 105]], is_english := false }

/-- Witness for `dict_entry_emission` at a concrete one-word entry and a
one-record pinyin table. -/
theorem dict_entry_emission_witness :
    ∃ spc pl l1 l2 l3 idxs ws,
      leU16 [1, 0, 1, 0, 1, 0, 1, 0, 0x60, 0x4F, 0, 0] = some (l1, spc) ∧
      leU16 l1 = some (l2, pl) ∧
      rawIndices pl l2 = some (l3, idxs) ∧ readWords spc l3 = some ([], ws) ∧
      ws.length = spc ∧
      ((ws = [] ∧ (some niRecord : Option WordLibrary) = none) ∨
        (∃ w ws2, ws = w :: ws2 ∧
          (some niRecord : Option WordLibrary) =
            some { word := w, rank := 0, code_type := CodeType.Pinyin,
                   codes := Code.from_char_list
                     (idxs.filterMap (fun i => List.lookup i [(1, [110, 105])])),
                   is_english := false })) :=
  dict_entry_emission [1, 0, 1, 0, 1, 0, 1, 0, 0x60, 0x4F, 0, 0] [(1, [110, 105])] []
    (some niRecord) (by decide)

theorem drop_append_exact {α : Type} {pre tail : List α} {n : Nat} (h : pre.length = n) :
    (pre ++ tail).drop n = tail := by
  subst h
  exact List.drop_left pre tail

theorem take_append_exact {α : Type} {pre tail : List α} {n : Nat} (h : pre.length = n) :
    (pre ++ tail).take n = pre := by
  subst h
  exact List.take_left pre tail

/-- Modelled from the spec (record-stream generator for the table-parser
statements): the little-endian byte pair of a u16 value. -/
def u16leBytes (n : Nat) : List Nat := [n % 256, n / 256 % 256]

/-- Modelled from the spec: UTF-16 code units laid out as little-endian
byte pairs. -/
def unitsToBytes : List Nat → List Nat
  | [] => []
  | u :: us => u % 256 :: (u / 256 % 256) :: unitsToBytes us

/-- Modelled from the spec: one encoded pinyin-table record
`(index, length, length*2 bytes of text)`. -/
def encRecord (idx : Nat) (us : List Nat) : List Nat :=
  u16leBytes idx ++ u16leBytes us.length ++ unitsToBytes us

/-- Modelled from the spec: a well-formed run of encoded table records. -/
def encRecords : List (Nat × List Nat) → List Nat
  | [] => []
  | r :: rs => encRecord r.1 r.2 ++ encRecords rs

/-- The table contents after inserting each record in order (prepend
insert: later writes shadow earlier ones on lookup). -/
def insertRecs : List (Nat × List Nat) → PyTable → PyTable
  | [], t => t
  | r :: rs, t => insertRecs rs ((r.1, utf16Lossy r.2) :: t)

/-- Well-formedness of a generated record: nonzero index, u16-sized index,
length and units. -/
def recWF (r : Nat × List Nat) : Prop :=
  r.1 ≠ 0 ∧ r.1 < 65536 ∧ r.2.length < 65536 ∧ ∀ u ∈ r.2, u < 65536

instance (r : Nat × List Nat) : Decidable (recWF r) := by
  unfold recWF
  infer_instance

theorem u16leBytes_leU16 (n : Nat) (rest : List Nat) (h : n < 65536) :
    leU16 (u16leBytes n ++ rest) = some (rest, n) := by
  simp [u16leBytes, leU16]
  omega

theorem unitsToBytes_length (us : List Nat) : (unitsToBytes us).length = us.length * 2 := by
  induction us with
  | nil => simp [unitsToBytes]
  | cons u us ih => simp [unitsToBytes, ih]; omega

theorem bytesToUnits_unitsToBytes (us : List Nat) (h : ∀ u ∈ us, u < 65536) :
    bytesToUnits (unitsToBytes us) = us := by
  induction us with
  | nil => simp [unitsToBytes, bytesToUnits]
  | cons u us ih =>
    have hu := h u (by simp)
    simp [unitsToBytes, bytesToUnits, ih (fun v hv => h v (by simp [hv]))]
    omega

theorem encRecord_length (idx : Nat) (us : List Nat) :
    (encRecord idx us).length = 4 + us.length * 2 := by
  simp [encRecord, u16leBytes, unitsToBytes_length]
  omega

theorem encRecord_parse (idx : Nat) (us rest : List Nat)
    (h1 : idx < 65536) (h2 : us.length < 65536) (h3 : ∀ u ∈ us, u < 65536) :
    parse_pinyin_entry (encRecord idx us ++ rest) = some (rest, (idx, utf16Lossy us)) := by
  have e1 : leU16 (encRecord idx us ++ rest) =
      some (u16leBytes us.length ++ (unitsToBytes us ++ rest), idx) := by
    unfold encRecord
    rw [List.append_assoc, List.append_assoc]
    exact u16leBytes_leU16 idx _ h1
  have e2 : leU16 (u16leBytes us.length ++ (unitsToBytes us ++ rest)) =
      some (unitsToBytes us ++ rest, us.length) := u16leBytes_leU16 us.length _ h2
  have e3 : takeBytes (us.length * 2) (unitsToBytes us ++ rest) =
      some (rest, unitsToBytes us) := by
    unfold takeBytes
    rw [if_pos (by simp [unitsToBytes_length])]
    rw [drop_append_exact (unitsToBytes_length us), take_append_exact (unitsToBytes_length us)]
  unfold parse_pinyin_entry
  simp [e1, e2, e3, bytesToUnits_unitsToBytes us h3]

/-- Running the table loop over a run of well-formed encoded records with a
nonempty remainder inserts exactly those records (in order) and leaves
the cursor right after them. -/
theorem pinyinTableGo_encRecords :
    ∀ (recs : List (Nat × List Nat)) (data : List Nat) (offset : Nat) (tbl : PyTable)
      (suffix : List Nat),
      (∀ r ∈ recs, recWF r) →
      data.drop offset = encRecords recs ++ suffix →
      suffix ≠ [] →
      data.length < 2 ^ 64 →
      pinyinTableGo data offset tbl =
        pinyinTableGo data (offset + (encRecords recs).length) (insertRecs recs tbl) := by
  intro recs
  induction recs with
  | nil =>
    intro data offset tbl suffix hwf hdrop hsuf hlen
    simp [encRecords, insertRecs]
  | cons r rs ih =>
    intro data offset tbl suffix hwf hdrop hsuf hlen
    obtain ⟨hne, hi16, hl16, hu16⟩ := hwf r (by simp)
    have hdrop2 : data.drop offset = encRecord r.1 r.2 ++ (encRecords rs ++ suffix) := by
      rw [hdrop]
      simp [encRecords]
    have hdlen : data.length - offset =
        (encRecord r.1 r.2).length + (encRecords rs).length + suffix.length := by
      have hl := congrArg List.length hdrop2
      simp at hl
      omega
    have hsuflen : 1 ≤ suffix.length := by
      cases suffix with
      | nil => exact absurd rfl hsuf
      | cons a b => simp
    have he := encRecord_length r.1 r.2
    have hofflt : offset < data.length := by omega
    have hcond : offset < wsub data.length 4 := by
      rw [wsub_of_le (by omega) hlen]
      omega
    have hparse : parse_pinyin_entry (data.drop offset) =
        some (encRecords rs ++ suffix, (r.1, utf16Lossy r.2)) := by
      rw [hdrop2]
      exact encRecord_parse r.1 r.2 _ hi16 hl16 hu16
    rw [pinyinTableGo_step hcond hparse hne]
    have hlossy : (utf16Lossy r.2).length = r.2.length := utf16Lossy_length r.2
    have hofs : offset + (2 + 2 + (utf16Lossy r.2).length * 2) =
        offset + (encRecord r.1 r.2).length := by
      rw [hlossy, encRecord_length]
    rw [hofs]
    have hdrop3 : data.drop (offset + (encRecord r.1 r.2).length) = encRecords rs ++ suffix := by
      have hd : (0 : Nat) + (encRecord r.1 r.2).length = (encRecord r.1 r.2).length := by omega
      calc data.drop (offset + (encRecord r.1 r.2).length)
          = (data.drop offset).drop (encRecord r.1 r.2).length := by
            rw [List.drop_drop]
        _ = encRecords rs ++ suffix := by
            rw [hdrop2]
            exact drop_append_exact rfl
    rw [ih data (offset + (encRecord r.1 r.2).length) ((r.1, utf16Lossy r.2) :: tbl) suffix
      (fun q hq => hwf q (by simp [hq])) hdrop3 hsuf hlen]
    have hlen2 : offset + (encRecord r.1 r.2).length + (encRecords rs).length =
        offset + (encRecords (r :: rs)).length := by
      simp [encRecords]
      omega
    rw [hlen2]
    simp [insertRecs]

theorem parse_zero_record (junk : List Nat) :
    parse_pinyin_entry ([0, 0, 0, 0] ++ junk) = some (junk, (0, [])) := by
  simp [parse_pinyin_entry, leU16, takeBytes, bytesToUnits, utf16Lossy]

theorem pinyinTableGo_zeroRecord {data junk : List Nat} {offset : Nat} {tbl : PyTable}
    (hdrop : data.drop offset = [0, 0, 0, 0] ++ junk) :
    pinyinTableGo data offset tbl = tbl := by
  by_cases hcond : offset < wsub data.length 4
  · have hp : parse_pinyin_entry (data.drop offset) = some (junk, (0, [])) := by
      rw [hdrop]
      exact parse_zero_record junk
    exact pinyinTableGo_zero hcond hp
  · exact pinyinTableGo_stop hcond

theorem pinyinTableGo_truncRecord {data truncBytes : List Nat} {offset i0 i1 l0 l1 : Nat}
    {tbl : PyTable} (hdrop : data.drop offset = [i0, i1, l0, l1] ++ truncBytes)
    (htr : truncBytes.length < (l0 + 256 * l1) * 2) :
    pinyinTableGo data offset tbl = tbl := by
  by_cases hcond : offset < wsub data.length 4
  · refine pinyinTableGo_fail ?_
    rw [hdrop]
    have hnle : ¬ ((l0 + 256 * l1) * 2 ≤ truncBytes.length) := by omega
    simp [parse_pinyin_entry, leU16, takeBytes, hnle]
  · exact pinyinTableGo_stop hcond

theorem pinyinTableGo_short {data : List Nat} {offset : Nat} {tbl : PyTable}
    (h4 : 4 ≤ data.length) (hlen : data.length < 2 ^ 64)
    (hrem : data.length ≤ offset + 4) : pinyinTableGo data offset tbl = tbl := by
  refine pinyinTableGo_stop ?_
  rw [wsub_of_le h4 hlen]
  omega

/-- Claim C5: over any run of parsed records, the table loop terminates at
the first record whose index is zero without inserting it, regardless of
the remaining buffer content; a stream truncated mid-record (fewer than
`4 + length*2` bytes left for the record being read) or down to fewer
than 4 bytes stops parsing without an error, and the returned table
preserves all previously inserted entries. -/
theorem pinyin_table_stop_spec
    (pre junk truncBytes tiny : List Nat) (recs : List (Nat × List Nat)) (i0 i1 l0 l1 : Nat)
    (hpre : pre.length = 0x1540) (hwf : ∀ r ∈ recs, recWF r) :
    ((pre ++ (encRecords recs ++ ([0, 0, 0, 0] ++ junk))).length < 2 ^ 64 →
      parse_pinyin_table (pre ++ (encRecords recs ++ ([0, 0, 0, 0] ++ junk))) =
        insertRecs recs []) ∧
    (truncBytes.length < (l0 + 256 * l1) * 2 →
      (pre ++ (encRecords recs ++ ([i0, i1, l0, l1] ++ truncBytes))).length < 2 ^ 64 →
      parse_pinyin_table (pre ++ (encRecords recs ++ ([i0, i1, l0, l1] ++ truncBytes))) =
        insertRecs recs []) ∧
    (1 ≤ tiny.length → tiny.length < 4 →
      (pre ++ (encRecords recs ++ tiny)).length < 2 ^ 64 →
      parse_pinyin_table (pre ++ (encRecords recs ++ tiny)) = insertRecs recs []) := by
  refine ⟨fun hlen => ?_, fun htr hlen => ?_, fun htiny1 htiny4 hlen => ?_⟩
  · unfold parse_pinyin_table
    rw [pinyinTableGo_encRecords recs _ 0x1540 [] ([0, 0, 0, 0] ++ junk) hwf
      (drop_append_exact hpre) (by simp) hlen]
    have hd :
        (pre ++ (encRecords recs ++ ([0, 0, 0, 0] ++ junk))).drop
          (0x1540 + (encRecords recs).length) = [0, 0, 0, 0] ++ junk := by
      calc (pre ++ (encRecords recs ++ ([0, 0, 0, 0] ++ junk))).drop
            (0x1540 + (encRecords recs).length)
          = ((pre ++ (encRecords recs ++ ([0, 0, 0, 0] ++ junk))).drop 0x1540).drop
              (encRecords recs).length := (List.drop_drop _ _ _).symm
        _ = [0, 0, 0, 0] ++ junk := by
            rw [drop_append_exact hpre]
            exact drop_append_exact rfl
    exact pinyinTableGo_zeroRecord hd
  · unfold parse_pinyin_table
    rw [pinyinTableGo_encRecords recs _ 0x1540 [] ([i0, i1, l0, l1] ++ truncBytes) hwf
      (drop_append_exact hpre) (by simp) hlen]
    have hd :
        (pre ++ (encRecords recs ++ ([i0, i1, l0, l1] ++ truncBytes))).drop
          (0x1540 + (encRecords recs).length) = [i0, i1, l0, l1] ++ truncBytes := by
      calc (pre ++ (encRecords recs ++ ([i0, i1, l0, l1] ++ truncBytes))).drop
            (0x1540 + (encRecords recs).length)
          = ((pre ++ (encRecords recs ++ ([i0, i1, l0, l1] ++ truncBytes))).drop 0x1540).drop
              (encRecords recs).length := (List.drop_drop _ _ _).symm
        _ = [i0, i1, l0, l1] ++ truncBytes := by
            rw [drop_append_exact hpre]
            exact drop_append_exact rfl
    exact pinyinTableGo_truncRecord hd htr
  · unfold parse_pinyin_table
    rw [pinyinTableGo_encRecords recs _ 0x1540 [] tiny hwf
      (drop_append_exact hpre) (by intro hc; rw [hc] at htiny1; simp at htiny1) hlen]
    have hdl : (pre ++ (encRecords recs ++ tiny)).length =
        0x1540 + (encRecords recs).length + tiny.length := by
      simp [hpre]
      omega
    refine pinyinTableGo_short (by omega) hlen (by omega)

/-- Witness for `pinyin_table_stop_spec`: one record `(1, "ni")` followed
by a zero-index record and junk decodes to exactly that one entry. -/
theorem pinyin_table_stop_spec_witness :
    parse_pinyin_table
      (List.replicate 0x1540 0 ++ (encRecords [(1, [110, 105])] ++ ([0, 0, 0, 0] ++ [9]))) =
      [(1, [110, 105])] := by
  have hlen : (List.replicate 0x1540 (0 : Nat) ++
      (encRecords [(1, [110, 105])] ++ ([0, 0, 0, 0] ++ [9]))).length < 2 ^ 64 := by
    rw [List.length_append, List.length_replicate]
    have h13 : (encRecords [(1, [110, 105])] ++ ([0, 0, 0, 0] ++ [9])).length = 13 := rfl
    rw [h13]
    norm_num
  have h := (pinyin_table_stop_spec (List.replicate 0x1540 0) [9] [0] [0]
      [(1, [110, 105])] 1 0 5 0 (by rw [List.length_replicate]) (by decide)).1 hlen
  rw [h]
  decide

/-- Claim C6: a pinyin-table record read by the loop (nonzero index, text
fully within bounds), including one with `length = 0`, is inserted as
`index → decoded text` and the cursor advances by exactly
`4 + length*2` bytes past the record start. -/
theorem pinyin_record_insert_advance
    (data textBytes rest : List Nat) (offset b0 b1 b2 b3 : Nat) (tbl : PyTable)
    (hshape : data.drop offset = b0 :: b1 :: b2 :: b3 :: (textBytes ++ rest))
    (htext : textBytes.length = (b2 + 256 * b3) * 2)
    (hidx : b0 + 256 * b1 ≠ 0)
    (hcond : offset < wsub data.length 4) :
    pinyinTableGo data offset tbl =
      pinyinTableGo data (offset + (4 + (b2 + 256 * b3) * 2))
        ((b0 + 256 * b1, utf16Lossy (bytesToUnits textBytes)) :: tbl) := by
  have hparse : parse_pinyin_entry (data.drop offset) =
      some (rest, (b0 + 256 * b1, utf16Lossy (bytesToUnits textBytes))) := by
    rw [hshape]
    have e3 : takeBytes ((b2 + 256 * b3) * 2) (textBytes ++ rest) =
        some (rest, textBytes) := by
      unfold takeBytes
      rw [if_pos (by simp [htext])]
      rw [drop_append_exact htext, take_append_exact htext]
    unfold parse_pinyin_entry
    simp [leU16, e3]
  have hulen : (utf16Lossy (bytesToUnits textBytes)).length = b2 + 256 * b3 := by
    rw [utf16Lossy_length, bytesToUnits_length, htext]
    omega
  rw [pinyinTableGo_step hcond hparse hidx, hulen]

/-- Witness for `pinyin_record_insert_advance`: a length-zero record with
index 1 right at the table start, followed by one extra byte. -/
theorem pinyin_record_insert_advance_witness :
    pinyinTableGo (List.replicate 0x1540 0 ++ ([1, 0, 0, 0] ++ [7])) 0x1540 [] =
      pinyinTableGo (List.replicate 0x1540 0 ++ ([1, 0, 0, 0] ++ [7]))
        (0x1540 + (4 + (0 + 256 * 0) * 2))
        ((1 + 256 * 0, utf16Lossy (bytesToUnits [])) :: []) := by
  have hL : (List.replicate 0x1540 (0 : Nat) ++ ([1, 0, 0, 0] ++ [7])).length = 0x1545 := by
    rw [List.length_append, List.length_replicate]
    rfl
  refine pinyin_record_insert_advance _ [] [7] 0x1540 1 0 0 0 [] ?_ (by decide) (by decide) ?_
  · rw [drop_append_exact (List.length_replicate 0x1540 0)]
    rfl
  · rw [hL, wsub_of_le (by norm_num) (by norm_num)]
    norm_num

theorem findDictGo_none_spec {data : List Nat} :
    ∀ i, findDictGo data i = none →
      ∀ k, i ≤ k → k < wsub data.length 10 → ¬ dictPat data k := by
  intro i0
  induction i0 using findDictGo.induct data
  case _ i h1 hpat =>
    intro h
    rw [findDictGo_hit h1 hpat] at h
    cases h
  case _ i h1 hpat ih =>
    intro h k hik hk
    rw [findDictGo_miss h1 hpat] at h
    rcases Nat.eq_or_lt_of_le hik with he | hlt
    · subst he
      exact hpat
    · exact ih h k hlt hk
  case _ i h1 =>
    intro _ k hik hk
    exact absurd (by omega : i < wsub data.length 10) h1

theorem findDictGo_some_spec {data : List Nat} :
    ∀ i j, findDictGo data i = some j →
      i ≤ j ∧ j < wsub data.length 10 ∧ dictPat data j ∧
        ∀ k, i ≤ k → k < j → ¬ dictPat data k := by
  intro i0
  induction i0 using findDictGo.induct data
  case _ i h1 hpat =>
    intro j h
    rw [findDictGo_hit h1 hpat] at h
    simp at h
    subst h
    exact ⟨Nat.le_refl i, h1, hpat, fun k hik hki => absurd hik (by omega)⟩
  case _ i h1 hpat ih =>
    intro j h
    rw [findDictGo_miss h1 hpat] at h
    obtain ⟨hij, hjw, hpj, hmin⟩ := ih j h
    refine ⟨by omega, hjw, hpj, fun k hik hki => ?_⟩
    rcases Nat.eq_or_lt_of_le hik with he | hlt
    · subst he
      exact hpat
    · exact hmin k hlt hki
  case _ i h1 =>
    intro j h
    rw [findDictGo_stop h1] at h
    cases h

/-- Claim C7 (amended): for buffers of at least the minimum header size,
the locator returns the first offset `j` with `0x1540 ≤ j < len - 10`
whose 4-byte window matches `[0, 0, nonzero, 0]`, and returns the parse
error exactly when no window *starting before `len - 10`* matches — the
windows beginning in the final 10 bytes are never examined (see the
counterexample). -/
theorem find_dict_start_spec (data : List Nat) (hmin : 0x1540 ≤ data.length)
    (hlen : data.length < 2 ^ 64) :
    (∀ j, find_dict_start data = some j →
      0x1540 ≤ j ∧ j + 10 < data.length ∧ dictPat data j ∧
        ∀ k, 0x1540 ≤ k → k < j → ¬ dictPat data k) ∧
    (find_dict_start data = none ↔
      ∀ k, 0x1540 ≤ k → k + 10 < data.length → ¬ dictPat data k) := by
  have hw : wsub data.length 10 = data.length - 10 := wsub_of_le (by omega) hlen
  constructor
  · intro j h
    obtain ⟨hij, hjw, hpj, hmin2⟩ := findDictGo_some_spec 0x1540 j h
    rw [hw] at hjw
    exact ⟨hij, by omega, hpj, hmin2⟩
  · constructor
    · intro h k hk hkl
      exact findDictGo_none_spec 0x1540 h k hk (by omega)
    · intro hall
      cases hf : findDictGo data 0x1540 with
      | none =>
        unfold find_dict_start
        exact hf
      | some j =>
        obtain ⟨hij, hjw, hpj, _⟩ := findDictGo_some_spec 0x1540 j hf
        rw [hw] at hjw
        exact absurd hpj (hall j hij (by omega))

/-- A buffer whose only matching window starts in the final 10 bytes
(immediately at the end of the header region). -/
def c7buf : List Nat := List.replicate 0x1540 0 ++ [0, 0, 1, 0]

theorem c7buf_length : c7buf.length = 0x1544 := by
  unfold c7buf
  rw [List.length_append, List.length_replicate]
  rfl

/-- Claim C7 counterexample: `c7buf` contains a matching 4-byte window
fully inside the buffer (at offset 0x1540, ending at the last byte), yet
the locator fails, because the scan stops at `len - 10`. -/
theorem find_dict_start_misses_tail_window :
    find_dict_start c7buf = none ∧ dictPat c7buf 0x1540 ∧ 0x1540 + 3 < c7buf.length := by
  refine ⟨?_, ?_, ?_⟩
  · unfold find_dict_start
    refine findDictGo_stop ?_
    rw [c7buf_length, wsub_of_le (by norm_num) (by norm_num)]
    norm_num
  · unfold dictPat c7buf
    rw [getD_append_at (List.length_replicate 0x1540 0) (by norm_num : 0x1540 = 0x1540 + 0)]
    rw [getD_append_at (List.length_replicate 0x1540 0) (rfl : 0x1540 + 1 = 0x1540 + 1)]
    rw [getD_append_at (List.length_replicate 0x1540 0) (rfl : 0x1540 + 2 = 0x1540 + 2)]
    rw [getD_append_at (List.length_replicate 0x1540 0) (rfl : 0x1540 + 3 = 0x1540 + 3)]
    simp
  · rw [c7buf_length]
    norm_num

/-- Witness for `find_dict_start_spec`: on a buffer whose window at 0x1540
is found, the located offset indeed carries the pattern. -/
theorem find_dict_start_spec_witness :
    dictPat (List.replicate 0x1540 0 ++ tailOk) 0x1540 := by
  have hh : (List.replicate 0x1540 (0 : Nat)).length = 0x1540 := List.length_replicate 0x1540 0
  have hL : (List.replicate 0x1540 (0 : Nat) ++ tailOk).length = 0x154E := by
    rw [List.length_append, hh]
    rfl
  have hpat : dictPat (List.replicate 0x1540 0 ++ tailOk) 0x1540 := by
    unfold dictPat
    rw [getD_append_at hh (by norm_num : 0x1540 = 0x1540 + 0)]
    rw [getD_append_at hh (rfl : 0x1540 + 1 = 0x1540 + 1)]
    rw [getD_append_at hh (rfl : 0x1540 + 2 = 0x1540 + 2)]
    rw [getD_append_at hh (rfl : 0x1540 + 3 = 0x1540 + 3)]
    simp [tailOk]
  have hfind : find_dict_start (List.replicate 0x1540 0 ++ tailOk) = some 0x1540 := by
    unfold find_dict_start
    rw [findDictGo_hit _ hpat]
    rw [hL, wsub_of_le (by norm_num) (by norm_num)]
    norm_num
  exact ((find_dict_start_spec (List.replicate 0x1540 0 ++ tailOk)
    (by rw [hL]; norm_num) (by rw [hL]; norm_num)).1 0x1540 hfind).2.2.1

theorem dictPat_shift {pre tail : List Nat} {n k : Nat} (h : pre.length = n) :
    dictPat (pre ++ tail) (n + k) ↔ dictPat tail k := by
  unfold dictPat
  rw [getD_append_at h rfl,
    getD_append_at h (by omega : n + k + 1 = n + (k + 1)),
    getD_append_at h (by omega : n + k + 2 = n + (k + 2)),
    getD_append_at h (by omega : n + k + 3 = n + (k + 3))]

/-- Tail of the crash-triggering buffer: a zero-index table terminator,
then the first matching dictionary window placed so that the located
slice is only 11 bytes long. -/
def c1tail : List Nat := [0, 0, 0, 0, 0, 0, 1, 0, 0, 0, 0, 0, 0, 0, 0]

/-- The crash-triggering buffer: minimal-length header region of zeros
(the full decode never checks the magic) followed by `c1tail`. -/
def c1buf : List Nat := List.replicate 0x1540 0 ++ c1tail

/-- The dictionary slice the locator selects from `c1buf`: 11 bytes,
fewer than the 14 the entry loop bound subtracts. -/
def c1slice : List Nat := [0, 0, 1, 0, 0, 0, 0, 0, 0, 0, 0]

theorem c1buf_length : c1buf.length = 0x154F := by
  unfold c1buf c1tail
  rw [List.length_append, List.length_replicate]
  rfl

theorem c1rep_length : (List.replicate 0x1540 (0 : Nat)).length = 0x1540 :=
  List.length_replicate 0x1540 0

theorem c1_table : parse_pinyin_table c1buf = [] := by
  unfold parse_pinyin_table
  have hd : c1buf.drop 0x1540 = [0, 0, 0, 0] ++ [0, 0, 1, 0, 0, 0, 0, 0, 0, 0, 0] := by
    unfold c1buf
    rw [drop_append_exact c1rep_length]
    rfl
  exact pinyinTableGo_zeroRecord hd

theorem c1_find : find_dict_start c1buf = some 0x1544 := by
  have hw : wsub c1buf.length 10 = 0x1545 := by
    rw [c1buf_length, wsub_of_le (by norm_num) (by norm_num)]
  have hmiss : ∀ k : Nat, ¬ dictPat c1tail k → ¬ dictPat c1buf (0x1540 + k) := by
    intro k hk hp
    exact hk ((dictPat_shift c1rep_length).mp hp)
  have hcond : ∀ k : Nat, k < 5 → 0x1540 + k < wsub c1buf.length 10 := by
    intro k hk
    rw [hw]
    omega
  unfold find_dict_start
  show findDictGo c1buf (0x1540 + 0) = some 0x1544
  rw [findDictGo_miss (hcond 0 (by norm_num)) (hmiss 0 (by decide))]
  show findDictGo c1buf (0x1540 + 1) = some 0x1544
  rw [findDictGo_miss (hcond 1 (by norm_num)) (hmiss 1 (by decide))]
  show findDictGo c1buf (0x1540 + 2) = some 0x1544
  rw [findDictGo_miss (hcond 2 (by norm_num)) (hmiss 2 (by decide))]
  show findDictGo c1buf (0x1540 + 3) = some 0x1544
  rw [findDictGo_miss (hcond 3 (by norm_num)) (hmiss 3 (by decide))]
  show findDictGo c1buf (0x1540 + 4) = some 0x1544
  rw [findDictGo_hit (hcond 4 (by norm_num))
    ((dictPat_shift c1rep_length).mpr (by decide))]

theorem c1slice_parse0 : parse_dict_entry (c1slice.drop 0) [] = some ([0, 0, 0, 0, 0], none) := by
  decide

theorem c1slice_parse6 : parse_dict_entry (c1slice.drop 6) [] = some ([0], none) := by
  decide

theorem c1slice_parse10 : parse_dict_entry (c1slice.drop 10) [] = none := by
  decide

theorem c1slice_parse11 : parse_dict_entry (c1slice.drop 11) [] = none := by
  decide

theorem c1slice_wsub : wsub c1slice.length 14 = 2 ^ 64 - 3 := by
  have h11 : c1slice.length = 11 := by decide
  rw [h11, wsub_of_lt (by norm_num) (by norm_num)]
  norm_num

theorem c1slice_dict_crash : parse_dictionary c1slice [] = RResult.crash := by
  unfold parse_dictionary
  suffices h : parseDictGo c1slice [] 0 [] = none by rw [h]
  rw [parseDictGo_ok (by rw [c1slice_wsub]; norm_num) (by decide) c1slice_parse0,
    if_neg (by decide)]
  show parseDictGo c1slice [] 6 [] = none
  rw [parseDictGo_ok (by rw [c1slice_wsub]; norm_num) (by decide) c1slice_parse6,
    if_neg (by decide)]
  show parseDictGo c1slice [] 10 [] = none
  rw [parseDictGo_err (by rw [c1slice_wsub]; norm_num) (by decide) c1slice_parse10,
    if_neg (by decide)]
  show parseDictGo c1slice [] 11 [] = none
  rw [parseDictGo_err (by rw [c1slice_wsub]; norm_num) (by decide) c1slice_parse11,
    if_neg (by decide)]
  show parseDictGo c1slice [] 12 [] = none
  exact parseDictGo_crash (by rw [c1slice_wsub]; norm_num) (by decide)

/-- Claim C1 (code bug): the full decode crashes on this concrete buffer.
The locator places the dictionary slice 11 bytes before the end; the
entry loop computes `data.len() - 14` on that slice, which underflows
(panicking in a debug build; in a release build the wrapped bound lets
the cursor pass the slice end and `&data[offset..]` panics). -/
theorem scel_file_crashes : parse_scel_file c1buf = RResult.crash := by
  unfold parse_scel_file
  rw [if_neg (by rw [c1buf_length]; norm_num), c1_find]
  show parse_dictionary (c1buf.drop 0x1544) (parse_pinyin_table c1buf) = RResult.crash
  have hdrop : c1buf.drop 0x1544 = c1slice := by
    show c1buf.drop (0x1540 + 4) = c1slice
    unfold c1buf
    rw [drop_append_of_length c1rep_length]
    rfl
  rw [hdrop, c1_table]
  exact c1slice_dict_crash

/-- The spec's synthetic round-trip payload: one pinyin-table record
`(index = 1, length = 2, "ni")` followed by one dictionary entry
`(same_pinyin_count = 1, pinyin_len = 1, indices = [1], word = U+4F60,
ext_len = 0)`. -/
def c3tail : List Nat :=
  [1, 0, 2, 0, 0x6E, 0, 0x69, 0] ++ [1, 0, 1, 0, 1, 0, 1, 0, 0x60, 0x4F, 0, 0]

/-- The spec's synthetic round-trip buffer: a valid header with the exact
magic, then the table record, then the dictionary entry. -/
def c3buf : List Nat := validHdr ++ c3tail

theorem c3buf_length : c3buf.length = 0x1554 := by
  unfold c3buf c3tail
  rw [List.length_append, validHdr_length]
  rfl

theorem c3_find : find_dict_start c3buf = none := by
  have hw : wsub c3buf.length 10 = 0x154A := by
    rw [c3buf_length, wsub_of_le (by norm_num) (by norm_num)]
  have hmiss : ∀ k : Nat, ¬ dictPat c3tail k → ¬ dictPat c3buf (0x1540 + k) := by
    intro k hk hp
    exact hk ((dictPat_shift validHdr_length).mp hp)
  have hcond : ∀ k : Nat, k < 10 → 0x1540 + k < wsub c3buf.length 10 := by
    intro k hk
    rw [hw]
    omega
  unfold find_dict_start
  show findDictGo c3buf (0x1540 + 0) = none
  rw [findDictGo_miss (hcond 0 (by norm_num)) (hmiss 0 (by decide))]
  show findDictGo c3buf (0x1540 + 1) = none
  rw [findDictGo_miss (hcond 1 (by norm_num)) (hmiss 1 (by decide))]
  show findDictGo c3buf (0x1540 + 2) = none
  rw [findDictGo_miss (hcond 2 (by norm_num)) (hmiss 2 (by decide))]
  show findDictGo c3buf (0x1540 + 3) = none
  rw [findDictGo_miss (hcond 3 (by norm_num)) (hmiss 3 (by decide))]
  show findDictGo c3buf (0x1540 + 4) = none
  rw [findDictGo_miss (hcond 4 (by norm_num)) (hmiss 4 (by decide))]
  show findDictGo c3buf (0x1540 + 5) = none
  rw [findDictGo_miss (hcond 5 (by norm_num)) (hmiss 5 (by decide))]
  show findDictGo c3buf (0x1540 + 6) = none
  rw [findDictGo_miss (hcond 6 (by norm_num)) (hmiss 6 (by decide))]
  show findDictGo c3buf (0x1540 + 7) = none
  rw [findDictGo_miss (hcond 7 (by norm_num)) (hmiss 7 (by decide))]
  show findDictGo c3buf (0x1540 + 8) = none
  rw [findDictGo_miss (hcond 8 (by norm_num)) (hmiss 8 (by decide))]
  show findDictGo c3buf (0x1540 + 9) = none
  rw [findDictGo_miss (hcond 9 (by norm_num)) (hmiss 9 (by decide))]
  show findDictGo c3buf (0x1540 + 10) = none
  refine findDictGo_stop ?_
  rw [hw]
  omega

theorem c3_eval : parse_scel_file c3buf = RResult.err ("Could not find dictionary start") := by
  unfold parse_scel_file
  rw [if_neg (by rw [c3buf_length]; norm_num), c3_find]

/-- Claim C3 (amended): decoding the spec's synthetic round-trip buffer
does not yield the expected Record; the pinyin-table parser consumes the
dictionary entry as further table records, the locator finds no
`[0, 0, nonzero, 0]` window in its scan range, and the whole decode
fails with the dictionary-start parse error. -/
theorem scel_file_c3_err :
    parse_scel_file c3buf = RResult.err ("Could not find dictionary start") := c3_eval

/-- The Record the round-trip claim expects: word U+4F60, code kind
pinyin, default code string "ni". -/
def c3expected : WordLibrary :=
  { word := [0x4F60], rank := 0, code_type := CodeType.Pinyin,
    codes := Code.from_char_list [[0x6E, 0x69]], is_english := false }

/-- Claim C3 counterexample: the decode of the synthetic buffer is not the
single expected Record (word U+4F60, pinyin code "ni"); it is an error. -/
theorem scel_file_c3_not_ok : parse_scel_file c3buf ≠ RResult.ok [c3expected] := by
  intro h
  rw [c3_eval] at h
  cases h
